import Mathlib

/-!
Verification of the replay-buffer core in src/catalyst/rl/offpolicy/utils.py.

The Python module stores scalar time steps in fixed-size parallel numpy
arrays.  We embed the three classes as Lean structures over lists:
observations, actions and rewards are rationals (one rational stands for one
observation/action tensor; every property below is independent of the tensor
shape, and float arithmetic is modelled exactly by the rationals), dones are
booleans.  Array reads `a[i]` become `List.getD i default`, array writes
become `List.set`; numpy fancy assignment with an index list is a sequential
fold of `List.set`, so on duplicate indices the later write wins, exactly as
numpy executes it.  Python's `%` on a possibly negative left operand is
`Int.emod`, which agrees with Python for a positive modulus.
-/

namespace Catalyst

/-- State of a `BufferDataset` (utils.py lines 9-58): the parallel ring
arrays, the filled count `len` and the write cursor `pointer`. -/
structure Buffer where
  capacity : Nat
  observations : List ℚ
  actions : List ℚ
  rewards : List ℚ
  dones : List Bool
  len : Nat
  pointer : Nat
deriving Repr, DecidableEq

/-- One episode as handed to `push_episode`: four parallel sequences.  The
episode length is `len(rewards)` exactly as in utils.py line 63. -/
structure Episode where
  observations : List ℚ
  actions : List ℚ
  rewards : List ℚ
  dones : List Bool
deriving Repr, DecidableEq

/-- Episode length, `episode_len = len(rewards)` (line 63). -/
def Episode.len (e : Episode) : Nat := e.rewards.length

/-- Numpy fancy assignment `arr[indices] = vals`: sequential writes, so with
duplicate indices the later write wins. -/
def writeAll (arr : List α) (idxs : List Nat) (vals : List α) : List α :=
  (idxs.zip vals).foldl (fun a p => a.set p.1 p.2) arr

/-- The slot list `np.arange(pointer, pointer + episode_len) % max_size`
of `push_episode` (lines 66-68). -/
def pushIndices (b : Buffer) (episodeLen : Nat) : List Nat :=
  (List.range episodeLen).map (fun k => (b.pointer + k) % b.capacity)

/-- `BufferDataset.push_episode` (lines 60-74): updates the filled count to
`min(len + episode_len, max_size)`, writes the episode into the wrapped slot
range, and advances the cursor modulo the capacity.  The source has no
failure path: nothing checks `episode_len` against the capacity. -/
def pushEpisode (b : Buffer) (e : Episode) : Buffer :=
  { b with
    len := min (b.len + e.len) b.capacity
    observations := writeAll b.observations (pushIndices b e.len) e.observations
    actions := writeAll b.actions (pushIndices b e.len) e.actions
    rewards := writeAll b.rewards (pushIndices b e.len) e.rewards
    dones := writeAll b.dones (pushIndices b e.len) e.dones
    pointer := (b.pointer + e.len) % b.capacity }

/-- A sequence of `push_episode` calls. -/
def pushMany (b : Buffer) (es : List Episode) : Buffer :=
  es.foldl pushEpisode b

/-- Total number of steps in a sequence of episodes. -/
def totalSteps (es : List Episode) : Nat :=
  (es.map Episode.len).sum

/-- The backward-walk loop of `get_state` (lines 86-90): starting below
`idx`, keep stepping to `(idx - i - 1) % max_size` while the candidate slot
is inside the filled range and not a terminal step; the fuel is
`history_len - 1`.  Returns the visited slots in walk (newest-first)
order. -/
def backWalk (b : Buffer) (idx : Nat) : Nat → Nat → List Nat
  | 0, _ => []
  | fuel + 1, i =>
    let nextIdx := (((idx : Int) - i - 1) % (b.capacity : Int)).toNat
    if b.len ≤ nextIdx || b.dones.getD nextIdx false then []
    else nextIdx :: backWalk b idx fuel (i + 1)

/-- The gathered index list of the padded branch of `get_state`
(lines 85-91): `idx` first, then the backward walk, reversed into
chronological order. -/
def stateIndices (b : Buffer) (idx historyLen : Nat) : List Nat :=
  (idx :: backWalk b idx (historyLen - 1) 0).reverse

/-- `np.any(self.dones[start : idx + 1])` for `start ≥ 0` (line 81). -/
def doneInRange (b : Buffer) (start idx : Nat) : Bool :=
  ((b.dones.drop start).take (idx + 1 - start)).any id

/-- The branch condition of `get_state` (line 81):
`start_idx < 0 or np.any(self.dones[start_idx : idx + 1])`; Python's `or`
short-circuits, so the slice is only evaluated when `start_idx ≥ 0`. -/
abbrev padCond (b : Buffer) (idx historyLen : Nat) : Prop :=
  ((idx : Int) - historyLen + 1 < 0) ∨
    doneInRange b ((idx : Int) - historyLen + 1).toNat idx = true

/-- `BufferDataset.get_state` (lines 76-96).  Padded branch: a zero state of
`history_len` slots whose trailing slots are the observations at the
gathered indices.  Fast branch: the contiguous slice
`observations[start_idx : idx + 1]`. -/
def getState (b : Buffer) (idx historyLen : Nat) : List ℚ :=
  if padCond b idx historyLen then
    List.replicate (historyLen - (stateIndices b idx historyLen).length) 0
      ++ (stateIndices b idx historyLen).map (fun i => b.observations.getD i 0)
  else
    (b.observations.drop (((idx : Int) - historyLen + 1).toNat)).take
      (idx + 1 - ((idx : Int) - historyLen + 1).toNat)

/-- The slot list `np.arange(idx, idx + n_step) % max_size` of
`get_transition_n_step` (line 104). -/
def nStepIndices (b : Buffer) (idx nStep : Nat) : List Nat :=
  (List.range nStep).map (fun k => (idx + k) % b.capacity)

/-- The reward-accumulation loop of `get_transition_n_step` (lines 103-109):
`cum_reward += rewards[i] * gamma ** num`, breaking right after the first
terminal slot.  Returns the accumulated reward and the final value of the
loop variable `done`.  For an empty index list (`n_step = 0`) the Python
`done` variable would be unbound; the claims below only touch
`n_step ≥ 1`. -/
def transitionLoop (b : Buffer) (gamma : ℚ) : List Nat → Nat → ℚ → ℚ × Bool
  | [], _, acc => (acc, false)
  | i :: rest, num, acc =>
    let acc1 := acc + b.rewards.getD i 0 * gamma ^ num
    if b.dones.getD i false then (acc1, true)
    else transitionLoop b gamma rest (num + 1) acc1

/-- `BufferDataset.get_transition_n_step` (lines 98-110): the tuple
`(state, action, cum_reward, next_state, done)`. -/
def getTransitionNStep (b : Buffer) (idx historyLen nStep : Nat) (gamma : ℚ) :
    List ℚ × ℚ × ℚ × List ℚ × Bool :=
  (getState b idx historyLen,
   b.actions.getD idx 0,
   (transitionLoop b gamma (nStepIndices b idx nStep) 0 0).1,
   getState b ((idx + nStep) % b.capacity) historyLen,
   (transitionLoop b gamma (nStepIndices b idx nStep) 0 0).2)

/-- Reference discounted sum of the rewards at a slot list, starting at
exponent `num`; used to state what `transitionLoop` accumulates. -/
def discountedSum (b : Buffer) (gamma : ℚ) : List Nat → Nat → ℚ
  | [], _ => 0
  | i :: rest, num =>
    b.rewards.getD i 0 * gamma ^ num + discountedSum b gamma rest (num + 1)

/-- Observation storage dtype choices of utils.py lines 44 and 164. -/
inductive ObsDtype where
  | float32
  | uint8
deriving Repr, DecidableEq

/-- Action storage dtype choices of utils.py lines 45 and 165. -/
inductive ActDtype where
  | float32
  | int
deriving Repr, DecidableEq

/-- Line 44/164, `np.unit8 if byte_observations else np.float32`.  The numpy
module has no attribute named unit8 (the byte dtype is spelled uint8), so
evaluating the first branch raises AttributeError; the conditional
expression only evaluates that branch when byte_observations is true. -/
def obsDtypeOf (byteObservations : Bool) : Except String ObsDtype :=
  if byteObservations then
    Except.error "AttributeError: module numpy has no attribute unit8"
  else Except.ok ObsDtype.float32

/-- Line 45/165, `np.int if discrete_actions else np.float32`; in the numpy
contemporary with this source, np.int is a valid (deprecated) alias. -/
def actDtypeOf (discreteActions : Bool) : ActDtype :=
  if discreteActions then ActDtype.int else ActDtype.float32

/-- Result of a successful `BufferDataset.__init__`. -/
structure InitResult where
  obs_dtype : ObsDtype
  act_dtype : ActDtype
  action_shape : List Nat
  buffer : Buffer
deriving Repr, DecidableEq

/-- `BufferDataset.__init__` (lines 10-58).  The arrays come from `np.empty`
whose contents are arbitrary; they are modelled as zero-filled, and nothing
proved below depends on the initial contents.  `action_shape` is `(1,)` when
the actions are discrete (line 39). -/
def bufferDatasetInit (observationShape actionShape : List Nat)
    (maxSize historyLen nStep : Nat) (gamma : ℚ)
    (discreteActions byteObservations : Bool) : Except String InitResult := do
  let od ← obsDtypeOf byteObservations
  let _ := observationShape
  let _ := (historyLen, nStep, gamma)
  Except.ok
    { obs_dtype := od
      act_dtype := actDtypeOf discreteActions
      action_shape := if discreteActions then [1] else actionShape
      buffer :=
        { capacity := maxSize
          observations := List.replicate maxSize 0
          actions := List.replicate maxSize 0
          rewards := List.replicate maxSize 0
          dones := List.replicate maxSize false
          len := 0
          pointer := 0 } }

/-- State of a `SamplerBuffer` (utils.py lines 152-214), the per-rollout
episode accumulator: non-wrapping scratch arrays and a cursor. -/
structure SBuffer where
  size : Nat
  observations : List ℚ
  actions : List ℚ
  rewards : List ℚ
  dones : List Bool
  pointer : Nat
deriving Repr, DecidableEq

/-- `SamplerBuffer.__init__` (lines 153-174): same dtype selection as the
ring buffer, including the misspelled byte dtype on line 164. -/
def samplerBufferInit (capacity : Nat) (byteObservations : Bool) :
    Except String (ObsDtype × SBuffer) := do
  let od ← obsDtypeOf byteObservations
  Except.ok
    (od,
     { size := capacity
       observations := List.replicate capacity 0
       actions := List.replicate capacity 0
       rewards := List.replicate capacity 0
       dones := List.replicate capacity false
       pointer := 0 })

/-- `SamplerBuffer.init_with_observation` (lines 176-178). -/
def sbInitWithObservation (s : SBuffer) (o : ℚ) : SBuffer :=
  { s with observations := s.observations.set 0 o, pointer := 0 }

/-- `SamplerBuffer.get_state` (lines 180-188).  Line 181 is
`pointer = pointer or self.pointer`: both None and 0 are falsy in Python, so
an explicit argument of 0 also falls back to `self.pointer`. -/
def sbGetState (s : SBuffer) (historyLen : Nat) (pointerArg : Option Nat) :
    List ℚ :=
  let p := match pointerArg with
    | none => s.pointer
    | some 0 => s.pointer
    | some (k + 1) => k + 1
  let lo := p + 1 - historyLen
  let gathered := (List.range' lo (p + 1 - lo)).map
    (fun i => s.observations.getD i 0)
  List.replicate (historyLen - gathered.length) 0 ++ gathered

/-- `SamplerBuffer.push_transition` (lines 190-198): writes the next
observation at `pointer + 1` and the action/reward/done at `pointer`, then
advances the cursor. -/
def sbPushTransition (s : SBuffer) (sTp1 aT rT : ℚ) (dT : Bool) : SBuffer :=
  { s with
    observations := s.observations.set (s.pointer + 1) sTp1
    actions := s.actions.set s.pointer aT
    rewards := s.rewards.set s.pointer rT
    dones := s.dones.set s.pointer dT
    pointer := s.pointer + 1 }

/-- `SamplerBuffer.get_complete_episode` (lines 200-206): all four arrays
are read back over `np.arange(self.pointer)`, so all four have length
`pointer`. -/
def sbGetCompleteEpisode (s : SBuffer) :
    List ℚ × List ℚ × List ℚ × List Bool :=
  ((List.range s.pointer).map (fun i => s.observations.getD i 0),
   (List.range s.pointer).map (fun i => s.actions.getD i 0),
   (List.range s.pointer).map (fun i => s.rewards.getD i 0),
   (List.range s.pointer).map (fun i => s.dones.getD i false))

/-- `SamplerBuffer.get_states_history` (lines 208-214): one `get_state` per
step index in `range(self.pointer)`. -/
def sbGetStatesHistory (s : SBuffer) (historyLen : Nat) : List (List ℚ) :=
  (List.range s.pointer).map (fun i => sbGetState s historyLen (some i))

/-- `BufferSampler.__iter__` (lines 144-146), which evaluates
`np.random.choice(range(len(buffer)), size=epoch_len * batch_size)`.  The
random generator is abstracted as `draw`; numpy raises ValueError whenever
the population `range(len(buffer))` is empty, and otherwise every drawn
index lies in `[0, bufferLen)`. -/
def bufferSamplerIter (bufferLen samplerLen : Nat) (draw : Nat → Nat) :
    Except String (List Nat) :=
  if bufferLen = 0 then Except.error "ValueError: a must be non-empty"
  else Except.ok ((List.range samplerLen).map (fun k => draw k % bufferLen))

/-! Concrete instances used to instantiate the theorems below. -/

/-- Buffer holding one 4-step episode, terminal at slot 1. -/
def bW1 : Buffer :=
  ⟨4, [0, 0, 0, 0], [0, 0, 0, 0], [1, 2, 4, 8], [false, true, false, false], 4, 0⟩

/-- Buffer with 3 filled slots and a terminal flag at slot 1. -/
def bC2a : Buffer :=
  ⟨4, [10, 20, 30, 40], [0, 0, 0, 0], [0, 0, 0, 0], [false, true, false, false], 3, 3⟩

/-- Buffer with 3 filled slots and a terminal flag at slot 2. -/
def bC2b : Buffer :=
  ⟨4, [10, 20, 30, 40], [0, 0, 0, 0], [0, 0, 0, 0], [false, false, true, false], 3, 3⟩

/-- Empty 2-slot buffer: filled count 0. -/
def bEmpty : Buffer := ⟨2, [0, 0], [0, 0], [0, 0], [false, false], 0, 0⟩

/-- Empty 2-slot buffer for the capacity-overflow run. -/
def bC3 : Buffer := ⟨2, [0, 0], [0, 0], [0, 0], [false, false], 0, 0⟩

/-- A 3-step episode, longer than the capacity of `bC3`. -/
def eC3 : Episode := ⟨[1, 2, 3], [4, 5, 6], [7, 8, 9], [false, false, true]⟩

/-- Buffer of capacity 3 for the normal-push run. -/
def bC3W : Buffer := ⟨3, [0, 0, 0], [0, 0, 0], [0, 0, 0], [false, false, false], 0, 0⟩

/-- A 2-step episode fitting into `bC3W`. -/
def eC3W : Episode := ⟨[7, 9], [1, 1], [1, 2], [false, true]⟩

/-- Empty 2-slot buffer for the capacity-bound run. -/
def bC6 : Buffer := ⟨2, [0, 0], [0, 0], [0, 0], [false, false], 0, 0⟩

/-- Two episodes totalling 3 steps, each within capacity 2. -/
def esC6 : List Episode :=
  [⟨[1, 2], [1, 2], [1, 2], [false, true]⟩, ⟨[3], [3], [3], [true]⟩]

/-- One further 1-step episode. -/
def eC6 : Episode := ⟨[4], [4], [4], [false]⟩

/-- Buffer with 3 filled slots, no terminal flag, no wrap yet. -/
def bC7 : Buffer :=
  ⟨4, [10, 20, 30, 0], [0, 0, 0, 0], [0, 0, 0, 0], [false, false, false, false], 3, 3⟩

/-- Partially filled buffer of capacity 3 for the invariant run. -/
def bC10 : Buffer := ⟨3, [0, 0, 0], [0, 0, 0], [0, 0, 0], [false, false, false], 2, 1⟩

/-- A 2-step episode for the invariant run. -/
def eC10 : Episode := ⟨[5, 6], [5, 6], [5, 6], [false, false]⟩

/-- Accumulator after one appended step (cursor 1). -/
def sbC4 : SBuffer :=
  ⟨4, [10, 20, 30, 0], [1, 0, 0, 0], [5, 0, 0, 0], [true, false, false, false], 1⟩

/-- Accumulator after two appended steps (cursor 2). -/
def sbC5 : SBuffer :=
  ⟨4, [10, 20, 30, 0], [0, 0, 0, 0], [0, 0, 0, 0], [false, false, false, false], 2⟩

end Catalyst

namespace Catalyst

theorem discountedSum_append (b : Buffer) (gamma : ℚ) (l2 : List Nat) :
    ∀ (l1 : List Nat) (num : Nat),
      discountedSum b gamma (l1 ++ l2) num =
        discountedSum b gamma l1 num + discountedSum b gamma l2 (num + l1.length) := by
  intro l1
  induction l1 with
  | nil => intro num; simp [discountedSum]
  | cons i rest ih =>
    intro num
    show b.rewards.getD i 0 * gamma ^ num + discountedSum b gamma (rest ++ l2) (num + 1)
       = b.rewards.getD i 0 * gamma ^ num + discountedSum b gamma rest (num + 1)
         + discountedSum b gamma l2 (num + (rest.length + 1))
    rw [ih]
    ring_nf

theorem discountedSum_range_map (b : Buffer) (gamma : ℚ) (f : Nat → Nat) :
    ∀ (n num : Nat),
      discountedSum b gamma ((List.range n).map f) num =
        ((List.range n).map
          (fun j => b.rewards.getD (f j) 0 * gamma ^ (num + j))).sum := by
  intro n
  induction n with
  | zero => intro num; simp [discountedSum]
  | succ m ih =>
    intro num
    rw [List.range_succ, List.map_append, List.map_append, discountedSum_append,
      List.sum_append, ih]
    simp [discountedSum]

theorem transitionLoop_no_done (b : Buffer) (gamma : ℚ) :
    ∀ (l : List Nat), (∀ i ∈ l, b.dones.getD i false = false) →
      ∀ (num : Nat) (acc : ℚ),
        transitionLoop b gamma l num acc = (acc + discountedSum b gamma l num, false) := by
  intro l
  induction l with
  | nil => intro _ num acc; simp [transitionLoop, discountedSum]
  | cons i rest ih =>
    intro hnd num acc
    have hi : b.dones.getD i false = false := hnd i (List.mem_cons_self i rest)
    show (if b.dones.getD i false = true then _ else _) = _
    rw [hi]
    simp only [Bool.false_eq_true, if_false]
    rw [ih (fun j hj => hnd j (List.mem_cons_of_mem i hj))]
    simp only [discountedSum, Prod.mk.injEq, and_true]
    ring

theorem transitionLoop_break (b : Buffer) (gamma : ℚ) :
    ∀ (l1 : List Nat) (i0 : Nat) (l2 : List Nat),
      (∀ i ∈ l1, b.dones.getD i false = false) →
      b.dones.getD i0 false = true →
      ∀ (num : Nat) (acc : ℚ),
        transitionLoop b gamma (l1 ++ i0 :: l2) num acc =
          (acc + discountedSum b gamma (l1 ++ [i0]) num, true) := by
  intro l1
  induction l1 with
  | nil =>
    intro i0 l2 _ hd num acc
    show (if b.dones.getD i0 false = true then _ else _) = _
    rw [hd]
    simp only [if_true]
    simp [discountedSum]
  | cons i rest ih =>
    intro i0 l2 hnd hd num acc
    have hi : b.dones.getD i false = false := hnd i (List.mem_cons_self i rest)
    show (if b.dones.getD i false = true then _ else _) = _
    rw [hi]
    simp only [Bool.false_eq_true, if_false]
    show transitionLoop b gamma (rest ++ (i0 :: l2)) (num + 1)
        (acc + b.rewards.getD i 0 * gamma ^ num)
       = (acc + discountedSum b gamma ((i :: rest) ++ [i0]) num, true)
    rw [ih i0 l2 (fun j hj => hnd j (List.mem_cons_of_mem i hj)) hd]
    simp only [List.cons_append, discountedSum, Prod.mk.injEq, and_true]
    ring_nf
    rfl

theorem nStepIndices_split (b : Buffer) (idx : Nat) {n k : Nat} (h : k < n) :
    nStepIndices b idx n =
      nStepIndices b idx (k + 1) ++
        ((List.range (n - (k + 1))).map (fun j => (idx + (k + 1 + j)) % b.capacity)) := by
  have hn : n = (k + 1) + (n - (k + 1)) := by omega
  show (List.range n).map (fun j => (idx + j) % b.capacity) = _
  nth_rewrite 1 [hn]
  rw [List.range_add, List.map_append, List.map_map]
  rfl

/-- C1: within the n-step window the loop accumulates reward times
gamma to the offset, stops right after the first terminal slot with
terminal true (that slot's reward included), and with no terminal in the
window returns the full discounted sum with terminal false. -/
theorem c1_n_step_return :
    (∀ (b : Buffer) (idx historyLen nStep k0 : Nat) (gamma : ℚ),
      0 < b.capacity → idx < b.len → k0 < nStep →
      b.dones.getD ((idx + k0) % b.capacity) false = true →
      (∀ j, j < k0 → b.dones.getD ((idx + j) % b.capacity) false = false) →
      (getTransitionNStep b idx historyLen nStep gamma).2.2.1
        = ((List.range (k0 + 1)).map
            (fun j => b.rewards.getD ((idx + j) % b.capacity) 0 * gamma ^ j)).sum
      ∧ (getTransitionNStep b idx historyLen nStep gamma).2.2.2.2 = true)
    ∧ (∀ (b : Buffer) (idx historyLen nStep : Nat) (gamma : ℚ),
      0 < b.capacity → idx < b.len → 1 ≤ nStep →
      (∀ j, j < nStep → b.dones.getD ((idx + j) % b.capacity) false = false) →
      (getTransitionNStep b idx historyLen nStep gamma).2.2.1
        = ((List.range nStep).map
            (fun j => b.rewards.getD ((idx + j) % b.capacity) 0 * gamma ^ j)).sum
      ∧ (getTransitionNStep b idx historyLen nStep gamma).2.2.2.2 = false) := by
  constructor
  · intro b idx historyLen nStep k0 gamma _ _ hk0 hd hnd
    have hsplit : nStepIndices b idx nStep =
        ((List.range k0).map (fun j => (idx + j) % b.capacity)) ++
          (((idx + k0) % b.capacity) ::
            ((List.range (nStep - (k0 + 1))).map
              (fun j => (idx + (k0 + 1 + j)) % b.capacity))) := by
      rw [nStepIndices_split b idx hk0]
      show ((List.range (k0 + 1)).map (fun j => (idx + j) % b.capacity)) ++ _ = _
      rw [List.range_succ, List.map_append, List.append_assoc]
      rfl
    have hl1 : ∀ i ∈ (List.range k0).map (fun j => (idx + j) % b.capacity),
        b.dones.getD i false = false := by
      intro i hi
      simp only [List.mem_map, List.mem_range] at hi
      obtain ⟨j, hj, rfl⟩ := hi
      exact hnd j hj
    have hrun := transitionLoop_break b gamma
      ((List.range k0).map (fun j => (idx + j) % b.capacity))
      ((idx + k0) % b.capacity)
      ((List.range (nStep - (k0 + 1))).map (fun j => (idx + (k0 + 1 + j)) % b.capacity))
      hl1 hd 0 0
    have hcum : (getTransitionNStep b idx historyLen nStep gamma).2.2.1
        = (transitionLoop b gamma (nStepIndices b idx nStep) 0 0).1 := rfl
    have hdone : (getTransitionNStep b idx historyLen nStep gamma).2.2.2.2
        = (transitionLoop b gamma (nStepIndices b idx nStep) 0 0).2 := rfl
    rw [hcum, hdone, hsplit, hrun]
    constructor
    · show 0 + discountedSum b gamma _ 0 = _
      have happ : ((List.range k0).map (fun j => (idx + j) % b.capacity)) ++
          [(idx + k0) % b.capacity]
          = (List.range (k0 + 1)).map (fun j => (idx + j) % b.capacity) := by
        rw [List.range_succ, List.map_append]
        rfl
      rw [happ, discountedSum_range_map]
      simp only [Nat.zero_add, zero_add]
    · rfl
  · intro b idx historyLen nStep gamma _ _ _ hnd
    have hl : ∀ i ∈ nStepIndices b idx nStep, b.dones.getD i false = false := by
      intro i hi
      simp only [nStepIndices, List.mem_map, List.mem_range] at hi
      obtain ⟨j, hj, rfl⟩ := hi
      exact hnd j hj
    have hrun := transitionLoop_no_done b gamma (nStepIndices b idx nStep) hl 0 0
    have hcum : (getTransitionNStep b idx historyLen nStep gamma).2.2.1
        = (transitionLoop b gamma (nStepIndices b idx nStep) 0 0).1 := rfl
    have hdone : (getTransitionNStep b idx historyLen nStep gamma).2.2.2.2
        = (transitionLoop b gamma (nStepIndices b idx nStep) 0 0).2 := rfl
    rw [hcum, hdone, hrun]
    constructor
    · show 0 + discountedSum b gamma (nStepIndices b idx nStep) 0 = _
      rw [show nStepIndices b idx nStep
          = (List.range nStep).map (fun j => (idx + j) % b.capacity) from rfl,
        discountedSum_range_map]
      simp only [Nat.zero_add, zero_add]
    · rfl

/-- Witness for C1 on the concrete buffer bW1. -/
theorem c1_n_step_return_witness :
    (getTransitionNStep bW1 0 1 3 (1/2)).2.2.1 = 2
    ∧ (getTransitionNStep bW1 0 1 3 (1/2)).2.2.2.2 = true
    ∧ (getTransitionNStep bW1 2 1 2 (1/2)).2.2.1 = 8
    ∧ (getTransitionNStep bW1 2 1 2 (1/2)).2.2.2.2 = false := by
  have h1 := c1_n_step_return.1 bW1 0 1 3 1 (1/2) (by decide) (by decide) (by decide)
    (by decide) (by intro j hj; interval_cases j; decide)
  have h2 := c1_n_step_return.2 bW1 2 1 2 (1/2) (by decide) (by decide) (by decide)
    (by intro j hj; interval_cases j <;> decide)
  refine ⟨h1.1.trans ?_, h1.2, h2.1.trans ?_, h2.2⟩
  · simp [bW1, List.range_succ]
    norm_num
  · simp [bW1, List.range_succ]
    norm_num


theorem pushEpisode_len (b : Buffer) (e : Episode) :
    (pushEpisode b e).len = min (b.len + e.len) b.capacity := rfl

theorem pushEpisode_capacity (b : Buffer) (e : Episode) :
    (pushEpisode b e).capacity = b.capacity := rfl

theorem totalSteps_cons (e : Episode) (es : List Episode) :
    totalSteps (e :: es) = e.len + totalSteps es := by
  simp [totalSteps]

theorem pushMany_capacity : ∀ (es : List Episode) (b : Buffer),
    (pushMany b es).capacity = b.capacity := by
  intro es
  induction es with
  | nil => intro b; rfl
  | cons e rest ih => intro b; exact (ih (pushEpisode b e)).trans rfl

theorem pushMany_len : ∀ (es : List Episode) (b : Buffer), b.len ≤ b.capacity →
    (pushMany b es).len = min (b.len + totalSteps es) b.capacity := by
  intro es
  induction es with
  | nil =>
    intro b hb
    show b.len = min (b.len + totalSteps []) b.capacity
    have h0 : totalSteps [] = 0 := rfl
    omega
  | cons e rest ih =>
    intro b hb
    show (pushMany (pushEpisode b e) rest).len = _
    have hle : (pushEpisode b e).len ≤ (pushEpisode b e).capacity := by
      rw [pushEpisode_len, pushEpisode_capacity]; omega
    rw [ih (pushEpisode b e) hle, pushEpisode_len, pushEpisode_capacity, totalSteps_cons]
    omega

/-- C6: starting from a fresh buffer, the filled count never exceeds the
capacity, it reaches the capacity as soon as the pushed steps exceed it,
and any further push keeps it nondecreasing. -/
theorem c6_capacity_bound (b : Buffer) (es : List Episode)
    (hfresh : b.len = 0) (heach : ∀ e ∈ es, e.len ≤ b.capacity) :
    (pushMany b es).len ≤ b.capacity
    ∧ (b.capacity < totalSteps es → (pushMany b es).len = b.capacity)
    ∧ ∀ e, (pushMany b es).len ≤ (pushEpisode (pushMany b es) e).len := by
  have hb : b.len ≤ b.capacity := by omega
  have _ := heach
  have hlen := pushMany_len es b hb
  have hcap := pushMany_capacity es b
  refine ⟨by omega, by omega, ?_⟩
  intro e
  rw [pushEpisode_len, hcap]
  omega

/-- Witness for C6: capacity 2, episodes of 2 and 1 steps. -/
theorem c6_capacity_bound_witness :
    (pushMany bC6 esC6).len ≤ bC6.capacity
    ∧ (pushMany bC6 esC6).len = bC6.capacity
    ∧ (pushMany bC6 esC6).len ≤ (pushEpisode (pushMany bC6 esC6) eC6).len := by
  have h := c6_capacity_bound bC6 esC6 (by decide) (by decide)
  exact ⟨h.1, h.2.1 (by decide), h.2.2 eC6⟩


/-- C4 counterexample: after one appended step the observations array
returned by get_complete_episode has length cursor, not cursor + 1. -/
theorem c4_finalize_counterexample :
    ¬ (sbGetCompleteEpisode sbC4).1.length = sbC4.pointer + 1 := by decide

/-- C4 amended: get_complete_episode returns four arrays that all have
length cursor; the observations array is not one element longer, and in
particular the observation stored at slot cursor is not returned. -/
theorem c4_finalize_lengths (s : SBuffer) :
    (sbGetCompleteEpisode s).1.length = s.pointer
    ∧ (sbGetCompleteEpisode s).2.1.length = s.pointer
    ∧ (sbGetCompleteEpisode s).2.2.1.length = s.pointer
    ∧ (sbGetCompleteEpisode s).2.2.2.length = s.pointer := by
  refine ⟨?_, ?_, ?_, ?_⟩ <;> simp [sbGetCompleteEpisode]

/-- C5: evaluation of get_states_history at a 2-step accumulator whose
observation scratch holds 10, 20, 30.  The state for step 0 comes out as
the state ending at the current cursor (observation 30), not the state
ending at step 0 (observation 10), because line 181 treats an explicit
pointer argument of 0 as falsy; the state for step 1 is correct. -/
theorem c5_states_history_eval :
    sbGetStatesHistory sbC5 1 = [[30], [20]]
    ∧ sbGetState sbC5 1 (some 0) = sbGetState sbC5 1 none := by decide

/-- C8 counterexample: with filled count 0, assembling a transition does
not fail; it returns a transition built from the uninitialized storage. -/
theorem c8_empty_counterexample :
    bEmpty.len = 0
    ∧ getTransitionNStep bEmpty 0 1 1 (99/100) = ([0], 0, 0, [0], false) := by
  refine ⟨rfl, ?_⟩
  simp +decide [getTransitionNStep, nStepIndices, transitionLoop, getState,
    stateIndices, doneInRange, backWalk, bEmpty]

/-- C8 amended: requesting indices from the sampler while the buffer is
empty raises numpy's ValueError (there is no EmptyBufferError anywhere in
the module), while assembling a transition on an empty buffer does not
fail at all. -/
theorem c8_empty_buffer (samplerLen : Nat) (draw : Nat → Nat) :
    bufferSamplerIter 0 samplerLen draw
      = Except.error "ValueError: a must be non-empty"
    ∧ getTransitionNStep bEmpty 0 1 1 (99/100)
      = ([0], 0, 0, [0], false) := by
  refine ⟨rfl, ?_⟩
  simp +decide [getTransitionNStep, nStepIndices, transitionLoop, getState,
    stateIndices, doneInRange, backWalk, bEmpty]

/-- C9: constructing with byte_observations = true raises AttributeError
because of the unit8 misspelling on lines 44 and 164, in both
BufferDataset and SamplerBuffer; with byte_observations = false the float
storage is selected and construction succeeds. -/
theorem c9_construction_eval :
    bufferDatasetInit [8] [1] 4 1 1 (99/100) false true
      = Except.error "AttributeError: module numpy has no attribute unit8"
    ∧ samplerBufferInit 4 true
      = Except.error "AttributeError: module numpy has no attribute unit8"
    ∧ bufferDatasetInit [8] [1] 4 1 1 (99/100) false false
      = Except.ok
          { obs_dtype := ObsDtype.float32
            act_dtype := ActDtype.float32
            action_shape := [1]
            buffer := ⟨4, List.replicate 4 0, List.replicate 4 0,
              List.replicate 4 0, List.replicate 4 false, 0, 0⟩ }
    ∧ (samplerBufferInit 4 false).isOk = true := by
  refine ⟨rfl, rfl, ?_, rfl⟩
  rfl


theorem backWalk_next_eq (b : Buffer) (idx i : Nat) (h1 : i < idx)
    (h2 : idx ≤ b.capacity) :
    (((idx : Int) - i - 1) % (b.capacity : Int)).toNat = idx - i - 1 := by
  have e1 : (idx : Int) - i - 1 = ((idx - i - 1 : Nat) : Int) := by omega
  rw [e1, Int.emod_eq_of_lt (by omega) (by omega)]
  omega

theorem backWalk_wrap_eq (b : Buffer) (idx : Nat) (hc : 0 < b.capacity) :
    (((idx : Int) - idx - 1) % (b.capacity : Int)).toNat = b.capacity - 1 := by
  have e1 : (idx : Int) - idx - 1 = -1 := by ring
  have e2 : (-1 : Int) % (b.capacity : Int) = (b.capacity : Int) - 1 := by
    have e3 : (-1 : Int) = ((b.capacity : Int) - 1) + (b.capacity : Int) * (-1) := by ring
    rw [e3, Int.add_mul_emod_self_left, Int.emod_eq_of_lt (by omega) (by omega)]
  rw [e1, e2]
  omega

theorem backWalk_clean (b : Buffer) (idx : Nat) (hlen : idx < b.len)
    (hcap : b.len ≤ b.capacity) :
    ∀ (fuel : Nat) (i : Nat), i + fuel ≤ idx →
      (∀ j, idx - i - fuel ≤ j → j < idx → b.dones.getD j false = false) →
      backWalk b idx fuel i = (List.range fuel).map (fun t => idx - i - 1 - t) := by
  intro fuel
  induction fuel with
  | zero => intro i _ _; rfl
  | succ m ih =>
    intro i hif hnd
    have hi : i < idx := by omega
    have hnext := backWalk_next_eq b idx i hi (by omega)
    simp only [backWalk, hnext]
    have hlt : decide (b.len ≤ idx - i - 1) = false :=
      decide_eq_false (by omega)
    have hdn : b.dones.getD (idx - i - 1) false = false :=
      hnd (idx - i - 1) (by omega) (by omega)
    rw [hlt, hdn]
    simp only [Bool.or_self, Bool.false_eq_true, if_false]
    rw [ih (i + 1) (by omega) (fun j hj1 hj2 => hnd j (by omega) hj2)]
    rw [List.range_succ_eq_map, List.map_cons, List.map_map]
    have hfun : ((fun t => idx - i - 1 - t) ∘ Nat.succ)
        = (fun t => idx - (i + 1) - 1 - t) := by
      funext t
      show idx - i - 1 - (t + 1) = idx - (i + 1) - 1 - t
      omega
    rw [hfun]
    rfl

theorem backWalk_run (b : Buffer) (idx : Nat) (hlen : idx < b.len)
    (hcap : b.len < b.capacity)
    (hnd : ∀ j, j < idx → b.dones.getD j false = false) :
    ∀ (fuel : Nat) (i : Nat), idx ≤ i + fuel → i ≤ idx →
      backWalk b idx fuel i = (List.range (idx - i)).map (fun t => idx - i - 1 - t) := by
  intro fuel
  induction fuel with
  | zero =>
    intro i h1 h2
    have : idx - i = 0 := by omega
    rw [this]
    rfl
  | succ m ih =>
    intro i h1 h2
    rcases Nat.eq_or_lt_of_le h2 with heq | hi
    · subst heq
      have hwrap := backWalk_wrap_eq b i (by omega)
      simp only [backWalk, hwrap]
      have hlt : decide (b.len ≤ b.capacity - 1) = true :=
        decide_eq_true (by omega)
      rw [hlt]
      simp only [Bool.true_or, if_true]
      have : i - i = 0 := by omega
      rw [this]
      rfl
    · have hnext := backWalk_next_eq b idx i hi (by omega)
      simp only [backWalk, hnext]
      have hlt : decide (b.len ≤ idx - i - 1) = false :=
        decide_eq_false (by omega)
      have hdn : b.dones.getD (idx - i - 1) false = false :=
        hnd (idx - i - 1) (by omega)
      rw [hlt, hdn]
      simp only [Bool.or_self, Bool.false_eq_true, if_false]
      rw [ih (i + 1) (by omega) (by omega)]
      have hsz : List.range (idx - i) = List.range ((idx - (i + 1)) + 1) := by
        rw [show (idx - (i + 1)) + 1 = idx - i from by omega]
      rw [hsz, List.range_succ_eq_map, List.map_cons, List.map_map]
      have hfun : ((fun t => idx - i - 1 - t) ∘ Nat.succ)
          = (fun t => idx - (i + 1) - 1 - t) := by
        funext t
        show idx - i - 1 - (t + 1) = idx - (i + 1) - 1 - t
        omega
      rw [hfun]
      rfl

theorem rev_desc : ∀ (n a : Nat), n ≤ a + 1 →
    ((List.range n).map (fun t => a - t)).reverse
      = (List.range n).map (fun k => a + 1 - n + k) := by
  intro n
  induction n with
  | zero => intro a _; rfl
  | succ m ih =>
    intro a hm
    nth_rewrite 1 [List.range_succ]
    rw [List.map_append, List.reverse_append]
    simp only [List.map_cons, List.map_nil, List.reverse_nil, List.nil_append,
      List.singleton_append]
    rw [ih a (by omega)]
    rw [List.range_succ_eq_map, List.map_cons, List.map_map]
    have hfun : ((fun k => a + 1 - (m + 1) + k) ∘ Nat.succ)
        = (fun k => a + 1 - m + k) := by
      funext k
      show a + 1 - (m + 1) + (k + 1) = a + 1 - m + k
      omega
    rw [hfun]
    have hhead : a - m = a + 1 - (m + 1) + 0 := by omega
    rw [← hhead]
    rfl

theorem cons_desc (a m : Nat) :
    a :: (List.range m).map (fun t => a - 1 - t)
      = (List.range (m + 1)).map (fun t => a - t) := by
  rw [List.range_succ_eq_map, List.map_cons, List.map_map]
  have hfun : ((fun t => a - t) ∘ Nat.succ) = (fun t => a - 1 - t) := by
    funext t
    show a - (t + 1) = a - 1 - t
    omega
  rw [hfun]
  rfl


theorem doneInRange_true_of (b : Buffer) (s idx j : Nat) (h1 : s ≤ j)
    (h2 : j ≤ idx) (h3 : b.dones.getD j false = true) :
    doneInRange b s idx = true := by
  have hjlen : j < b.dones.length := by
    by_contra hc
    push_neg at hc
    rw [List.getD_eq_default _ _ hc] at h3
    exact absurd h3 (by simp)
  have hlen2 : j - s < ((b.dones.drop s).take (idx + 1 - s)).length := by
    simp only [List.length_take, List.length_drop]
    omega
  have helem : ((b.dones.drop s).take (idx + 1 - s))[j - s] = true := by
    rw [List.getElem_take, List.getElem_drop]
    rw [List.getD_eq_getElem _ _ hjlen] at h3
    simp only [show s + (j - s) = j from by omega]
    exact h3
  have hmem : true ∈ (b.dones.drop s).take (idx + 1 - s) :=
    helem ▸ List.getElem_mem hlen2
  rw [doneInRange, List.any_eq_true]
  exact ⟨true, hmem, rfl⟩

/-- C2: a done flag at idx - 1 truncates the composed state to the single
observation at idx after history_len - 1 zero slots; a done flag on idx
itself does not truncate anything: with no done strictly before idx inside
the window, the padded branch still returns the full history window ending
at idx. -/
theorem c2_episode_boundary :
    (∀ (b : Buffer) (idx historyLen : Nat),
      0 < idx → idx < b.len → b.len ≤ b.capacity → 2 ≤ historyLen →
      b.dones.getD (idx - 1) false = true →
      getState b idx historyLen
        = List.replicate (historyLen - 1) 0 ++ [b.observations.getD idx 0])
    ∧ (∀ (b : Buffer) (idx historyLen : Nat),
      1 ≤ historyLen → historyLen ≤ idx + 1 → idx < b.len → b.len ≤ b.capacity →
      b.dones.getD idx false = true →
      (∀ j, idx + 1 - historyLen ≤ j → j < idx → b.dones.getD j false = false) →
      getState b idx historyLen
        = (List.range historyLen).map
            (fun k => b.observations.getD (idx + 1 - historyLen + k) 0)) := by
  constructor
  · intro b idx historyLen hpos hlen hcap hh hd
    have hcond : padCond b idx historyLen := by
      by_cases hs : ((idx : Int) - historyLen + 1 < 0)
      · exact Or.inl hs
      · refine Or.inr (doneInRange_true_of b _ idx (idx - 1) ?_ (by omega) hd)
        omega
    have hwalk : backWalk b idx (historyLen - 1) 0 = [] := by
      have hfuel : historyLen - 1 = (historyLen - 2) + 1 := by omega
      rw [hfuel]
      simp only [backWalk, backWalk_next_eq b idx 0 (by omega) (by omega)]
      rw [show idx - 0 - 1 = idx - 1 from by omega, hd]
      simp only [Bool.or_true, if_true]
    rw [getState, if_pos hcond]
    simp only [stateIndices, hwalk, List.reverse_cons, List.reverse_nil,
      List.nil_append, List.length_cons, List.length_nil, List.map_cons,
      List.map_nil]
  · intro b idx historyLen hh1 hh2 hlen hcap hd hnd
    have hcond : padCond b idx historyLen :=
      Or.inr (doneInRange_true_of b _ idx idx (by omega) (by omega) hd)
    have hwalk := backWalk_clean b idx hlen hcap (historyLen - 1) 0
      (by omega) (fun j hj1 hj2 => hnd j (by omega) hj2)
    have hfun0 : (fun t => idx - 0 - 1 - t) = (fun t => idx - 1 - t) := rfl
    rw [hfun0] at hwalk
    have hsi : stateIndices b idx historyLen
        = (List.range historyLen).map (fun k => idx + 1 - historyLen + k) := by
      rw [stateIndices, hwalk, cons_desc,
        show (historyLen - 1) + 1 = historyLen from by omega,
        rev_desc historyLen idx (by omega)]
    rw [getState, if_pos hcond, hsi]
    simp only [List.length_map, List.length_range, Nat.sub_self,
      List.replicate_zero, List.nil_append, List.map_map]
    rfl

/-- Witness for C2 on concrete buffers with a done flag at idx - 1 and at
idx respectively. -/
theorem c2_episode_boundary_witness :
    getState bC2a 2 3 = List.replicate 2 0 ++ [bC2a.observations.getD 2 0]
    ∧ getState bC2b 2 3
      = (List.range 3).map (fun k => bC2b.observations.getD (2 + 1 - 3 + k) 0) := by
  constructor
  · exact c2_episode_boundary.1 bC2a 2 3 (by decide) (by decide) (by decide)
      (by decide) (by decide)
  · exact c2_episode_boundary.2 bC2b 2 3 (by decide) (by decide) (by decide)
      (by decide) (by decide) (fun j hj1 hj2 => by interval_cases j <;> decide)

/-- C7: before the buffer has ever wrapped, composing a state at an index
smaller than history_len - 1 with no done flag up to that index yields
history_len - 1 - idx zero slots followed by the observations 0..idx in
chronological order. -/
theorem c7_history_zero_padding (b : Buffer) (idx historyLen : Nat)
    (hidx : idx < b.len) (hnw : b.len < b.capacity) (hpad : idx + 1 < historyLen)
    (hnd : ∀ j, j ≤ idx → b.dones.getD j false = false) :
    getState b idx historyLen
      = List.replicate (historyLen - 1 - idx) 0
        ++ (List.range (idx + 1)).map (fun k => b.observations.getD k 0) := by
  have hcond : padCond b idx historyLen := Or.inl (by omega)
  have hwalk := backWalk_run b idx hidx hnw (fun j hj => hnd j (by omega))
    (historyLen - 1) 0 (by omega) (by omega)
  have hfun0 : (fun t => idx - 0 - 1 - t) = (fun t => idx - 1 - t) := rfl
  rw [hfun0, show idx - 0 = idx from rfl] at hwalk
  have hsi : stateIndices b idx historyLen = List.range (idx + 1) := by
    rw [stateIndices, hwalk, cons_desc, rev_desc (idx + 1) idx (by omega)]
    have hfun1 : (fun k => idx + 1 - (idx + 1) + k) = (fun k : Nat => k) := by
      funext k
      omega
    rw [hfun1, List.map_id']
  rw [getState, if_pos hcond, hsi]
  simp only [List.length_range]
  rw [show historyLen - (idx + 1) = historyLen - 1 - idx from by omega]

/-- Witness for C7 on a concrete buffer with three filled slots. -/
theorem c7_history_zero_padding_witness :
    getState bC7 1 4
      = List.replicate (4 - 1 - 1) 0
        ++ (List.range (1 + 1)).map (fun k => bC7.observations.getD k 0) :=
  c7_history_zero_padding bC7 1 4 (by decide) (by decide) (by decide)
    (fun j hj => by interval_cases j <;> decide)


theorem writeAll_getD_not_mem (d : ℚ) (t : Nat) :
    ∀ (idxs : List Nat) (vals : List ℚ) (arr : List ℚ),
      (∀ i ∈ idxs, i ≠ t) →
      (writeAll arr idxs vals).getD t d = arr.getD t d := by
  intro idxs
  induction idxs with
  | nil => intro vals arr _; cases vals <;> rfl
  | cons i rest ih =>
    intro vals arr hne
    cases vals with
    | nil => rfl
    | cons v vs =>
      show (writeAll (arr.set i v) rest vs).getD t d = arr.getD t d
      rw [ih vs (arr.set i v) (fun x hx => hne x (List.mem_cons_of_mem i hx))]
      have hit : i ≠ t := hne i (List.mem_cons_self i rest)
      rw [List.getD_eq_getElem?_getD, List.getElem?_set_ne hit,
        ← List.getD_eq_getElem?_getD]

theorem writeAll_getD_hit (d : ℚ) :
    ∀ (idxs : List Nat) (vals : List ℚ) (arr : List ℚ) (k : Nat),
      k < idxs.length → k < vals.length →
      (∀ m, k < m → m < idxs.length → idxs.getD m 0 ≠ idxs.getD k 0) →
      idxs.getD k 0 < arr.length →
      (writeAll arr idxs vals).getD (idxs.getD k 0) d = vals.getD k d := by
  intro idxs
  induction idxs with
  | nil =>
    intro vals arr k hk
    exact absurd hk (by simp)
  | cons i rest ih =>
    intro vals arr k hk hkv hdist hlt
    cases vals with
    | nil => exact absurd hkv (by simp)
    | cons v vs =>
      cases k with
      | zero =>
        show (writeAll (arr.set i v) rest vs).getD i d = v
        rw [writeAll_getD_not_mem d i rest vs (arr.set i v) ?hmem]
        · rw [List.getD_eq_getElem?_getD, List.getElem?_set_self ?hset,
            Option.getD_some]
          case hset => simpa using hlt
        case hmem =>
          intro x hx
          obtain ⟨m, hm⟩ := List.get_of_mem hx
          have hmlen : (m : Nat) < rest.length := m.isLt
          have := hdist ((m : Nat) + 1) (by omega) (Nat.succ_lt_succ hmlen)
          show x ≠ i
          have hxg : rest.getD (m : Nat) 0 = x := by
            rw [List.getD_eq_getElem _ _ hmlen]
            simpa [List.get_eq_getElem] using hm
          intro hxeq
          apply this
          show rest.getD (m : Nat) 0 = i
          rw [hxg, hxeq]
      | succ k0 =>
        show (writeAll (arr.set i v) rest vs).getD (rest.getD k0 0) d = vs.getD k0 d
        exact ih vs (arr.set i v) k0 (by simpa using hk) (by simpa using hkv)
          (fun m hm1 hm2 => hdist (m + 1) (by omega) (by simpa using Nat.succ_lt_succ hm2))
          (by simpa using hlt)


theorem getD_map_range (f : Nat → Nat) (n k : Nat) (hk : k < n) :
    ((List.range n).map f).getD k 0 = f k := by
  rw [List.getD_eq_getElem _ _ (by simpa using hk)]
  simp

/-- C3 counterexample: pushing a 3-step episode into an empty buffer of
capacity 2 does not fail and is not rejected: the arrays, the filled count
and the cursor all change (the wrapped slot 0 holds the episode's last
observation). -/
theorem c3_capacity_counterexample :
    bC3.capacity < eC3.len
    ∧ (pushEpisode bC3 eC3).observations = [3, 2]
    ∧ (pushEpisode bC3 eC3).len = 2
    ∧ (pushEpisode bC3 eC3).pointer = 1 := by decide

/-- C3 amended: push_episode never fails.  Whatever the episode length, the
filled count becomes min(len + episode_len, capacity) and the cursor
advances modulo the capacity; an episode longer than the capacity is
written anyway with wrapped colliding slots (later writes win).  In the
in-capacity case each step k of the episode lands in slot
(pointer + k) % capacity. -/
theorem c3_push_never_fails (b : Buffer) (e : Episode)
    (hobs : b.observations.length = b.capacity)
    (hval : e.observations.length = e.len)
    (hfit : e.len ≤ b.capacity) :
    (pushEpisode b e).len = min (b.len + e.len) b.capacity
    ∧ (pushEpisode b e).pointer = (b.pointer + e.len) % b.capacity
    ∧ ∀ k, k < e.len →
        (pushEpisode b e).observations.getD ((b.pointer + k) % b.capacity) 0
          = e.observations.getD k 0 := by
  refine ⟨rfl, rfl, ?_⟩
  intro k hk
  have hcap : 0 < b.capacity := by omega
  have hgetk : (pushIndices b e.len).getD k 0 = (b.pointer + k) % b.capacity :=
    getD_map_range _ _ _ hk
  have hres := writeAll_getD_hit 0 (pushIndices b e.len) e.observations
    b.observations k (by simpa [pushIndices] using hk) (by omega) ?hdist ?hin
  · rw [hgetk] at hres
    exact hres
  case hdist =>
    intro m hm1 hm2
    have hm3 : m < e.len := by simpa [pushIndices] using hm2
    rw [hgetk,
      show pushIndices b e.len
        = (List.range e.len).map (fun j => (b.pointer + j) % b.capacity) from rfl,
      getD_map_range _ _ _ hm3]
    intro heq
    have hmeq : m % b.capacity = k % b.capacity :=
      Nat.ModEq.add_left_cancel' b.pointer heq
    rw [Nat.mod_eq_of_lt (by omega), Nat.mod_eq_of_lt (by omega)] at hmeq
    omega
  case hin =>
    rw [hgetk, hobs]
    exact Nat.mod_lt _ hcap

/-- Witness for C3: a 2-step episode pushed into an empty capacity-3
buffer. -/
theorem c3_push_never_fails_witness :
    (pushEpisode bC3W eC3W).len = min (bC3W.len + eC3W.len) bC3W.capacity
    ∧ (pushEpisode bC3W eC3W).pointer = (bC3W.pointer + eC3W.len) % bC3W.capacity
    ∧ (pushEpisode bC3W eC3W).observations.getD ((bC3W.pointer + 1) % bC3W.capacity) 0
        = eC3W.observations.getD 1 0 := by
  have h := c3_push_never_fails bC3W eC3W (by decide) (by decide) (by decide)
  exact ⟨h.1, h.2.1, h.2.2 1 (by decide)⟩

theorem backWalk_mem_lt (b : Buffer) (idx : Nat) (hc : 0 < b.capacity) :
    ∀ (fuel i : Nat), ∀ x ∈ backWalk b idx fuel i, x < b.capacity := by
  intro fuel
  induction fuel with
  | zero =>
    intro i x hx
    exact absurd hx (by simp [backWalk])
  | succ m ih =>
    intro i x hx
    simp only [backWalk] at hx
    split at hx
    · exact absurd hx (by simp)
    · rcases List.mem_cons.mp hx with hhead | htail
      · subst hhead
        have h1 : 0 ≤ ((idx : Int) - i - 1) % (b.capacity : Int) :=
          Int.emod_nonneg _ (by omega)
        have h2 : ((idx : Int) - i - 1) % (b.capacity : Int) < (b.capacity : Int) :=
          Int.emod_lt_of_pos _ (by omega)
        omega
      · exact ih (i + 1) x htail

/-- C10: pushing an episode of length at most the capacity into a
well-formed buffer keeps the cursor strictly below the capacity and the
filled count at most the capacity, and every slot index later computed by
the n-step walk or by the state composition walk on the pushed buffer is
strictly below the capacity, so every array access stays in bounds of the
fixed-size parallel arrays. -/
theorem c10_push_invariants (b : Buffer) (e : Episode) (hc : 0 < b.capacity)
    (_hp : b.pointer < b.capacity) (_hl : b.len ≤ b.capacity)
    (_he : e.len ≤ b.capacity) :
    (pushEpisode b e).pointer < (pushEpisode b e).capacity
    ∧ (pushEpisode b e).len ≤ (pushEpisode b e).capacity
    ∧ (∀ idx nStep, ∀ x ∈ nStepIndices (pushEpisode b e) idx nStep,
        x < (pushEpisode b e).capacity)
    ∧ (∀ idx historyLen, idx < (pushEpisode b e).capacity →
        ∀ x ∈ stateIndices (pushEpisode b e) idx historyLen,
          x < (pushEpisode b e).capacity) := by
  have hcap : (pushEpisode b e).capacity = b.capacity := rfl
  refine ⟨?_, ?_, ?_, ?_⟩
  · show (b.pointer + e.len) % b.capacity < b.capacity
    exact Nat.mod_lt _ hc
  · show min (b.len + e.len) b.capacity ≤ b.capacity
    omega
  · intro idx nStep x hx
    simp only [nStepIndices, List.mem_map, List.mem_range] at hx
    obtain ⟨j, _, rfl⟩ := hx
    show (idx + j) % b.capacity < b.capacity
    exact Nat.mod_lt _ hc
  · intro idx historyLen hidx x hx
    rw [stateIndices, List.mem_reverse] at hx
    rcases List.mem_cons.mp hx with hhead | htail
    · omega
    · exact backWalk_mem_lt (pushEpisode b e) idx (by omega) _ 0 x htail

/-- Witness for C10 on a concrete partially filled buffer. -/
theorem c10_push_invariants_witness :
    (pushEpisode bC10 eC10).pointer < (pushEpisode bC10 eC10).capacity
    ∧ (pushEpisode bC10 eC10).len ≤ (pushEpisode bC10 eC10).capacity
    ∧ (2 : Nat) < (pushEpisode bC10 eC10).capacity
    ∧ (0 : Nat) < (pushEpisode bC10 eC10).capacity := by
  have h := c10_push_invariants bC10 eC10 (by decide) (by decide) (by decide)
    (by decide)
  exact ⟨h.1, h.2.1, h.2.2.1 5 3 2 (by decide), h.2.2.2 1 2 (by decide) 0 (by decide)⟩



/-- Witness for C4 at the concrete accumulator sbC4. -/
theorem c4_finalize_lengths_witness :
    (sbGetCompleteEpisode sbC4).1.length = sbC4.pointer
    ∧ (sbGetCompleteEpisode sbC4).2.1.length = sbC4.pointer
    ∧ (sbGetCompleteEpisode sbC4).2.2.1.length = sbC4.pointer
    ∧ (sbGetCompleteEpisode sbC4).2.2.2.length = sbC4.pointer :=
  c4_finalize_lengths sbC4

/-- Witness for C8 at a concrete sampler length and drawing function. -/
theorem c8_empty_buffer_witness :
    bufferSamplerIter 0 5 (fun k => k)
      = Except.error "ValueError: a must be non-empty"
    ∧ getTransitionNStep bEmpty 0 1 1 (99/100)
      = ([0], 0, 0, [0], false) :=
  c8_empty_buffer 5 (fun k => k)


end Catalyst
